import Mathlib

/-!
Verification of the UnityExtractor repository (src/main.py, src/gui.py).

The development shallowly embeds the directory-walking, merging,
categorization and reporting logic of `APKExtractorCore` (src/main.py)
as executable Lean definitions and proves or refutes the specification
claims about them.

Filesystem model: a directory tree is a finite association list from
relative paths (lists of path components) to file contents (strings).
`lookupFile` returns the content at the first matching path, mirroring
the fact that a real directory holds at most one file per path.
-/

namespace UnityExtractor

/-- A relative path, as a list of components. -/
abbrev DirPath := List String

/-- A directory tree: finitely many files, each a path paired with its
content.  Python's `Path.rglob('*')` enumerates exactly these entries. -/
abbrev FS := List (DirPath × String)

/-- Content of the file at path `p`, first match wins (a real directory
holds at most one file per path; extraction never creates duplicates). -/
def lookupFile (fs : FS) (p : DirPath) : Option String :=
  match fs with
  | [] => none
  | (q, c) :: rest => if q = p then some c else lookupFile rest p

@[simp] theorem lookupFile_nil (p : DirPath) : lookupFile [] p = none := rfl

theorem lookupFile_cons (q : DirPath) (c : String) (rest : FS) (p : DirPath) :
    lookupFile ((q, c) :: rest) p = if q = p then some c else lookupFile rest p := rfl

/-- The first defined of two optional results. -/
def firstSome (a b : Option String) : Option String :=
  match a with
  | some c => some c
  | none => b

@[simp] theorem firstSome_some (c : String) (b : Option String) :
    firstSome (some c) b = some c := rfl

@[simp] theorem firstSome_none (b : Option String) :
    firstSome none b = b := rfl

/-- `lookupFile` over an append: the left tree shadows the right one. -/
theorem lookupFile_append (l₁ l₂ : FS) (p : DirPath) :
    lookupFile (l₁ ++ l₂) p =
      firstSome (lookupFile l₁ p) (lookupFile l₂ p) := by
  induction l₁ with
  | nil => simp [lookupFile]
  | cons hd tl ih =>
      obtain ⟨q, c⟩ := hd
      by_cases h : q = p <;> simp [lookupFile, h, ih]

/-- Embedding of `APKExtractorCore._merge_directories` (main.py:314-329):
iterate over every file of the source tree and copy it to the destination
only when no file exists there yet (`if not dst_path.exists()`). -/
def merge_directories (src dst : FS) : FS :=
  src.foldl
    (fun acc pc => if (lookupFile acc pc.1).isSome then acc else acc ++ [pc]) dst

@[simp] theorem merge_directories_nil (dst : FS) :
    merge_directories [] dst = dst := rfl

/-- One step of the merge fold. -/
theorem merge_directories_cons (pc : DirPath × String) (src dst : FS) :
    merge_directories (pc :: src) dst =
      merge_directories src
        (if (lookupFile dst pc.1).isSome then dst else dst ++ [pc]) := by
  simp only [merge_directories, List.foldl_cons]

/-- The merge of main.py:314-329 is copy-if-absent: looking up a path in
the merged tree returns the destination's content when the destination
already has a file there, and otherwise the source's content. -/
theorem lookupFile_merge_directories (src dst : FS) (p : DirPath) :
    lookupFile (merge_directories src dst) p =
      firstSome (lookupFile dst p) (lookupFile src p) := by
  induction src generalizing dst with
  | nil =>
      simp only [merge_directories_nil, lookupFile_nil]
      cases h : lookupFile dst p <;> simp
  | cons pc src ih =>
      obtain ⟨q, c⟩ := pc
      rw [merge_directories_cons]
      by_cases hq : (lookupFile dst q).isSome
      · rw [if_pos hq, ih]
        cases hdp : lookupFile dst p with
        | some v => simp
        | none =>
            simp only [firstSome_none, lookupFile_cons]
            by_cases hqp : q = p
            · subst hqp
              rw [hdp] at hq
              simp at hq
            · simp [hqp]
      · rw [if_neg hq, ih, lookupFile_append]
        cases hdp : lookupFile dst p with
        | some v => simp
        | none =>
            simp only [firstSome_none, lookupFile_cons, lookupFile_nil]
            by_cases hqp : q = p
            · subst hqp
              simp
            · simp [hqp]

/-- C1: the claim says the `_merge_directories` merge is last-write-wins,
i.e. that for a path present in both trees the destination ends up holding
the nested APK's (source) content.  Refuted at a concrete input: with
source content "new" and destination content "old" at the same path, the
merged tree still holds "old", not "new" — the code only copies when
`dst_path` does not exist (main.py:328). -/
theorem merge_not_last_write_wins :
    lookupFile [(["a"], "new")] ["a"] = some "new" ∧
    lookupFile [(["a"], "old")] ["a"] = some "old" ∧
    lookupFile (merge_directories [(["a"], "new")] [(["a"], "old")]) ["a"]
      = some "old" ∧
    ("old" : String) ≠ "new" := by
  refine ⟨rfl, rfl, ?_, by decide⟩
  rfl

/-- C1 (amended): the merge is copy-if-absent (destination-wins).  For
every path, the merged tree holds the parent's (destination) content when
the parent already has a file there, and the nested APK's (source) content
exactly when the path was absent from the parent. -/
theorem merge_directories_copy_if_absent (src dst : FS) (p : DirPath) :
    lookupFile (merge_directories src dst) p =
      firstSome (lookupFile dst p) (lookupFile src p) :=
  lookupFile_merge_directories src dst p

/-! ## Nested-APK extraction (`_extract_apk_contents`, main.py:244-312) -/

/-- Boolean suffix test on character lists: `endsWithL pat s` holds when
`s` ends with `pat`.  Mirrors Python's `str.endswith`. -/
def endsWithL (pat s : List Char) : Bool :=
  pat.reverse.isPrefixOf s.reverse

/-- main.py:262: `file.lower().endswith('.apk')`. -/
def isApkName (n : String) : Bool :=
  endsWithL ".apk".data (n.data.map Char.toLower)

/-- A ZIP entry as `_extract_apk_contents` sees it: either an ordinary
file with raw bytes, or an entry whose bytes form a further ZIP archive
(the case of an APK stored inside an APK).  Entry names are taken flat,
as zip member names. -/
inductive ZEntry : Type where
  | raw : String → String → ZEntry
  | zip : String → List ZEntry → ZEntry

/-- The member name of a ZIP entry. -/
def ZEntry.name : ZEntry → String
  | .raw n _ => n
  | .zip n _ => n

/-- The bytes the entry is extracted to disk as.  For an entry that is
itself an archive the bytes are the (opaque) archive blob. -/
def ZEntry.blob : ZEntry → String
  | .raw _ c => c
  | .zip _ _ => "zip-archive-bytes"

/-- How many members a nested archive entry has; an ordinary file has
none.  Used only to bound the size of the extraction's output. -/
def ZEntry.entryCount : ZEntry → Nat
  | .raw _ _ => 0
  | .zip _ es => es.length

/-- main.py:287-294: open a nested APK with `zipfile.ZipFile` and extract
each member.  When the file is not a valid archive the constructor raises
and the surrounding `except` (main.py:304-306) skips it, contributing no
files. -/
def nestedUnpack : ZEntry → FS
  | .raw _ _ => []
  | .zip _ es => es.map fun e => ([e.name], e.blob)

/-- Embedding of `_extract_apk_contents` (main.py:244-312): extract every
member of the input APK into the working directory, collect the members
whose lowercased name ends in `.apk` (main.py:262), then for each such
nested APK extract it into a scratch directory and merge the result into
the working directory with `_merge_directories` (main.py:299).  Members
of nested APKs are never themselves examined for further `.apk` files. -/
def extractApkContents (entries : List ZEntry) : FS :=
  (entries.filter fun e => isApkName e.name).foldl
    (fun acc e => merge_directories (nestedUnpack e) acc)
    (entries.map fun e => ([e.name], e.blob))

/-- A fold preserves a property that every step preserves. -/
theorem foldl_preserve {α β : Type} (g : β → α → β) (P : β → Prop)
    (hpres : ∀ acc y, P acc → P (g acc y)) :
    ∀ (l : List α) (init : β), P init → P (l.foldl g init) := by
  intro l
  induction l with
  | nil => intro init h; simpa using h
  | cons y l ih => intro init h; exact ih (g init y) (hpres _ _ h)

/-- A fold reaches and then preserves a property: if some element of the
list establishes `P` from any accumulator and every element preserves
`P`, the fold's result satisfies `P`. -/
theorem foldl_invariant_of_mem {α β : Type} (g : β → α → β) (P : β → Prop) :
    ∀ (l : List α) (x : α) (init : β), x ∈ l →
      (∀ acc, P (g acc x)) → (∀ acc y, P acc → P (g acc y)) →
      P (l.foldl g init) := by
  intro l
  induction l with
  | nil => intro x init hx _ _; cases hx
  | cons y l ih =>
      intro x init hx hset hpres
      rcases List.mem_cons.mp hx with h | h
      · subst h
        simp only [List.foldl_cons]
        exact foldl_preserve g P hpres l (g init x) (hset init)
      · exact ih x (g init y) h hset hpres

/-- Every member of a list of extracted entries is found by `lookupFile`. -/
theorem lookup_extracted_isSome (es : List ZEntry) (f : ZEntry) (hf : f ∈ es) :
    (lookupFile (es.map fun e => ([e.name], e.blob)) [f.name]).isSome = true := by
  induction es with
  | nil => cases hf
  | cons e es ih =>
      simp only [List.map_cons, lookupFile_cons]
      by_cases h : [e.name] = [f.name]
      · simp [h]
      · rcases List.mem_cons.mp hf with hef | hef
        · subst hef; simp at h
        · simp [h, ih hef]

theorem firstSome_isSome_right (a b : Option String)
    (hb : b.isSome = true) : (firstSome a b).isSome = true := by
  cases a <;> simp [firstSome, hb]

theorem firstSome_isSome_left (a b : Option String)
    (ha : a.isSome = true) : (firstSome a b).isSome = true := by
  cases a <;> simp_all [firstSome]

/-- C2: the claim says nested-APK unpacking is recursive to arbitrary
depth.  Refuted at a concrete input: for an input APK holding `a.apk`,
which itself holds `b.apk`, which holds `inner.txt`, the code extracts
`b.apk` as a plain file into the working directory (so it is an `.apk`
file found in the extracted contents) but never unpacks it —
`inner.txt` is absent from the result.  `_extract_apk_contents` only
scans the input APK's own member list for `.apk` names (main.py:256-263)
and never re-scans merged content. -/
theorem nested_apk_unpack_not_recursive :
    isApkName "b.apk" = true ∧
    lookupFile
      (extractApkContents
        [ZEntry.zip "a.apk" [ZEntry.zip "b.apk" [ZEntry.raw "inner.txt" "x"]]])
      ["b.apk"] = some "zip-archive-bytes" ∧
    lookupFile
      (extractApkContents
        [ZEntry.zip "a.apk" [ZEntry.zip "b.apk" [ZEntry.raw "inner.txt" "x"]]])
      ["inner.txt"] = none := by
  refine ⟨by decide, by rfl, by rfl⟩

/-- C2 (amended): unpacking of nested APKs goes exactly one level deep.
Every `.apk`-named member of the input APK that is a valid archive is
unpacked, and each of its members ends up present (under the
copy-if-absent merge) as a file in the parent working directory; APK
files found inside those merged contents are extracted as plain files
but are not themselves unpacked. -/
theorem nested_apk_unpack_one_level (entries : List ZEntry)
    (nm : String) (es : List ZEntry) (f : ZEntry)
    (hmem : ZEntry.zip nm es ∈ entries) (hapk : isApkName nm = true)
    (hf : f ∈ es) :
    (lookupFile (extractApkContents entries) [f.name]).isSome = true := by
  have hmemf : ZEntry.zip nm es ∈ entries.filter fun e => isApkName e.name :=
    List.mem_filter.mpr ⟨hmem, by simpa [ZEntry.name] using hapk⟩
  refine foldl_invariant_of_mem
    (fun acc e => merge_directories (nestedUnpack e) acc)
    (fun acc => (lookupFile acc [f.name]).isSome = true)
    _ _ _ hmemf ?_ ?_
  · intro acc
    rw [lookupFile_merge_directories]
    exact firstSome_isSome_right _ _
      (by simpa [nestedUnpack] using lookup_extracted_isSome es f hf)
  · intro acc y hacc
    rw [lookupFile_merge_directories]
    exact firstSome_isSome_left _ _ hacc

/-- C2 witness: instantiating the one-level theorem at a concrete input
APK `[outer.apk ∋ data.txt]`. -/
theorem nested_apk_unpack_one_level_witness :
    (lookupFile
      (extractApkContents
        [ZEntry.zip "outer.apk" [ZEntry.raw "data.txt" "d"]])
      ["data.txt"]).isSome = true :=
  nested_apk_unpack_one_level
    [ZEntry.zip "outer.apk" [ZEntry.raw "data.txt" "d"]]
    "outer.apk" [ZEntry.raw "data.txt" "d"] (ZEntry.raw "data.txt" "d")
    (by simp) (by decide) (by simp)

/-! ## Termination and resource bound of the unpack-and-merge routine -/

/-- Each merge step adds at most one file per source file. -/
theorem merge_directories_length_le (src dst : FS) :
    (merge_directories src dst).length ≤ dst.length + src.length := by
  induction src generalizing dst with
  | nil => simp
  | cons pc src ih =>
      rw [merge_directories_cons]
      by_cases hq : (lookupFile dst pc.1).isSome
      · rw [if_pos hq]
        have := ih dst
        simpa using Nat.le_trans this (by omega)
      · rw [if_neg hq]
        have := ih (dst ++ [pc])
        simp only [List.length_append, List.length_cons, List.length_nil] at this ⊢
        omega

theorem nestedUnpack_length (e : ZEntry) :
    (nestedUnpack e).length = e.entryCount := by
  cases e <;> simp [nestedUnpack, ZEntry.entryCount]

theorem merge_fold_length_le (l : List ZEntry) :
    ∀ acc : FS,
      (l.foldl (fun acc e => merge_directories (nestedUnpack e) acc) acc).length ≤
        acc.length + (l.map ZEntry.entryCount).sum := by
  induction l with
  | nil => intro acc; simp
  | cons e l ih =>
      intro acc
      simp only [List.foldl_cons, List.map_cons, List.sum_cons]
      have h1 := ih (merge_directories (nestedUnpack e) acc)
      have h2 := merge_directories_length_le (nestedUnpack e) acc
      rw [nestedUnpack_length] at h2
      omega

/-- C7: the nested-APK unpack-and-merge routine of main.py:244-312 is a
total function of the (finite) input entry tree, so it terminates on
every input APK; moreover its working-directory output is explicitly
bounded: it holds at most one file per member of the input APK plus one
file per member of each first-level nested archive.  No cycle handling is
needed because the routine only ever opens the input archive and the
archives stored directly inside it. -/
theorem extract_apk_contents_terminates_with_bound (entries : List ZEntry) :
    (extractApkContents entries).length ≤
      entries.length + (entries.map ZEntry.entryCount).sum := by
  have hx : extractApkContents entries =
      (entries.filter fun e => isApkName e.name).foldl
        (fun acc e => merge_directories (nestedUnpack e) acc)
        (entries.map fun e => ([e.name], e.blob)) := rfl
  have h1 := merge_fold_length_le (entries.filter fun e => isApkName e.name)
    (entries.map fun e => ([e.name], e.blob))
  rw [hx]
  have h2 :
      ((entries.filter fun e => isApkName e.name).map ZEntry.entryCount).sum ≤
        (entries.map ZEntry.entryCount).sum :=
    List.Sublist.sum_le_sum
      (List.Sublist.map ZEntry.entryCount (List.filter_sublist entries))
      (fun a _ => Nat.zero_le a)
  have h3 : (entries.map fun e => ([e.name], e.blob)).length = entries.length :=
    List.length_map _ _
  omega

/-! ## sanitize_filename (main.py:152-157) -/

/-- The characters `sanitize_filename` strips: `'<>:"/\\|?*'`. -/
def invalidChars : List Char :=
  ['<', '>', ':', '\"', '/', '\\', '|', '?', '*']

/-- Python's `name.replace(char, '_')` for a single-character pattern:
replace every occurrence of `c` by an underscore. -/
def replaceChar (c : Char) (s : List Char) : List Char :=
  s.map fun x => if x = c then '_' else x

/-- Embedding of `sanitize_filename` (main.py:152-157): successively
replace each invalid character by `'_'`, then truncate to 100 characters
when longer (`name[:100] if len(name) > 100 else name`). -/
def sanitize_filename (s : List Char) : List Char :=
  let r := invalidChars.foldl (fun acc c => replaceChar c acc) s
  if r.length > 100 then r.take 100 else r

/-- The combined effect of the successive `replace` calls on one
character. -/
def sanitizeChar (cs : List Char) (x : Char) : Char :=
  if cs.contains x then '_' else x

/-- The chain of `replace` calls equals one map of `sanitizeChar`. -/
theorem foldl_replaceChar_eq_map (cs : List Char) :
    ∀ s : List Char,
      cs.foldl (fun acc c => replaceChar c acc) s = s.map (sanitizeChar cs) := by
  induction cs with
  | nil =>
      intro s
      simp only [List.foldl_nil, sanitizeChar, List.contains_nil,
        Bool.false_eq_true, if_false]
      exact (List.map_id s).symm
  | cons c cs ih =>
      intro s
      simp only [List.foldl_cons]
      rw [ih (replaceChar c s)]
      simp only [replaceChar, List.map_map]
      refine List.map_congr_left ?_
      intro x _
      simp only [Function.comp_apply, sanitizeChar]
      by_cases hxc : x = c
      · subst hxc
        simp [List.contains_cons]
      · simp [List.contains_cons, hxc]

theorem sanitizeChar_clean (c : Char) :
    invalidChars.contains (sanitizeChar invalidChars c) = false := by
  by_cases h : invalidChars.contains c
  · simp only [sanitizeChar, h, if_true]
    decide
  · simp only [sanitizeChar, h, if_false]
    simpa using h

/-- Every character of `sanitize_filename s` is clean. -/
theorem sanitize_filename_mem_clean (s : List Char) (x : Char)
    (hx : x ∈ sanitize_filename s) : invalidChars.contains x = false := by
  have hx' : x ∈ s.map (sanitizeChar invalidChars) := by
    unfold sanitize_filename at hx
    rw [foldl_replaceChar_eq_map] at hx
    by_cases h : (s.map (sanitizeChar invalidChars)).length > 100
    · rw [if_pos h] at hx
      exact List.take_subset _ _ hx
    · rwa [if_neg h] at hx
  obtain ⟨y, _, rfl⟩ := List.mem_map.mp hx'
  exact sanitizeChar_clean y

/-- C9: `sanitize_filename` removes every Windows-invalid character,
returns at most 100 characters, and is idempotent. -/
theorem sanitize_filename_clean_short_idempotent (s : List Char) :
    ((sanitize_filename s).all fun c => !(invalidChars.contains c)) = true ∧
    (sanitize_filename s).length ≤ 100 ∧
    sanitize_filename (sanitize_filename s) = sanitize_filename s := by
  refine ⟨?_, ?_, ?_⟩
  · refine List.all_eq_true.mpr ?_
    intro x hx
    show (!(invalidChars.contains x)) = true
    rw [sanitize_filename_mem_clean s x hx]
    rfl
  · unfold sanitize_filename
    rw [foldl_replaceChar_eq_map]
    by_cases h : (s.map (sanitizeChar invalidChars)).length > 100
    · rw [if_pos h]
      simp [List.length_take]
    · rw [if_neg h]
      omega
  · have hlen : (sanitize_filename s).length ≤ 100 := by
      unfold sanitize_filename
      rw [foldl_replaceChar_eq_map]
      by_cases h : (s.map (sanitizeChar invalidChars)).length > 100
      · rw [if_pos h]
        simp [List.length_take]
      · rw [if_neg h]
        omega
    have hmap : (sanitize_filename s).map (sanitizeChar invalidChars) =
        sanitize_filename s := by
      have := List.map_congr_left (f := sanitizeChar invalidChars) (g := id)
        (l := sanitize_filename s) ?_
      · simpa using this
      · intro x hx
        have hc := sanitize_filename_mem_clean s x hx
        have hne : ¬(invalidChars.contains x = true) := by
          rw [hc]; exact Bool.false_ne_true
        show (if invalidChars.contains x then '_' else x) = id x
        rw [if_neg hne, id_eq]
    conv_lhs => rw [sanitize_filename]
    rw [foldl_replaceChar_eq_map, hmap]
    rw [if_neg (by omega)]

/-! ## AssetBundle discovery (`_extract_unity_assets`, main.py:528-544) -/

/-- An entry of the unpacked temp tree as `Path.rglob` yields it: its
final name component and whether it is a regular file.  `rglob` matches
directories as well as files, so both kinds occur. -/
structure FEntry where
  name : String
  isFile : Bool
deriving DecidableEq

/-- main.py:532: `bundle_exts = ['.assetbundle', '.bundle', '.unity3d']`. -/
def bundle_exts : List String := [".assetbundle", ".bundle", ".unity3d"]

/-- A name matches some AssetBundle extension. -/
def matchesBundleExt (n : String) : Bool :=
  bundle_exts.any fun ext => endsWithL ext.data n.data

/-- main.py:535-536: for each extension, `bundles.extend(
self.temp_dir.rglob(f"*{ext}"))` — collect every entry (file or
directory) whose name ends with the extension. -/
def findBundles (tree : List FEntry) : List FEntry :=
  bundle_exts.foldl
    (fun acc ext => acc ++ tree.filter fun e => endsWithL ext.data e.name.data) []

/-- main.py:538: `self.stats['assetbundles'] = len(bundles)`. -/
def statsAssetbundles (tree : List FEntry) : Nat := (findBundles tree).length

theorem findBundles_eq (tree : List FEntry) :
    findBundles tree =
      (tree.filter fun e => endsWithL ".assetbundle".data e.name.data) ++
      ((tree.filter fun e => endsWithL ".bundle".data e.name.data) ++
       (tree.filter fun e => endsWithL ".unity3d".data e.name.data)) := by
  simp [findBundles, bundle_exts]

/-- Two suffix patterns where the shorter is not a suffix of the longer
never both match the same name. -/
theorem endsWithL_excl (p1 p2 n : List Char) (hlen : p1.length ≤ p2.length)
    (hnp : ¬ p1 <:+ p2) :
    ¬(endsWithL p1 n = true ∧ endsWithL p2 n = true) := by
  rintro ⟨h1, h2⟩
  rw [endsWithL, List.isPrefixOf_iff_prefix] at h1 h2
  have : p1.reverse <+: p2.reverse :=
    List.prefix_of_prefix_length_le h1 h2 (by simpa using hlen)
  exact hnp (List.reverse_prefix.mp this)

/-- Counting a three-way disjunction of mutually exclusive predicates. -/
theorem countP_or_three {α : Type} (p1 p2 p3 : α → Bool)
    (h12 : ∀ a, ¬(p1 a = true ∧ p2 a = true))
    (h13 : ∀ a, ¬(p1 a = true ∧ p3 a = true))
    (h23 : ∀ a, ¬(p2 a = true ∧ p3 a = true)) :
    ∀ l : List α, l.countP (fun a => p1 a || (p2 a || p3 a)) =
      l.countP p1 + l.countP p2 + l.countP p3 := by
  intro l
  induction l with
  | nil => simp
  | cons a l ih =>
      rw [List.countP_cons, List.countP_cons, List.countP_cons,
        List.countP_cons, ih]
      by_cases h1 : p1 a = true <;> by_cases h2 : p2 a = true <;>
        by_cases h3 : p3 a = true
      · exact absurd ⟨h1, h2⟩ (h12 a)
      · exact absurd ⟨h1, h2⟩ (h12 a)
      · exact absurd ⟨h1, h3⟩ (h13 a)
      · simp [h1, h2, h3]
        omega
      · exact absurd ⟨h2, h3⟩ (h23 a)
      · simp [h1, h2, h3]
        omega
      · simp [h1, h2, h3]
        omega
      · simp [h1, h2, h3]

/-- C5: the claim says `stats['assetbundles']` equals the number of
FILES with an AssetBundle extension.  Refuted at a concrete input:
`Path.rglob(f"*{ext}")` also matches directories, so a directory named
`lib.bundle` is collected and counted, while the number of matching
files is zero. -/
theorem assetbundle_count_not_only_files :
    statsAssetbundles [⟨"lib.bundle", false⟩] = 1 ∧
    ([(⟨"lib.bundle", false⟩ : FEntry)].countP fun e =>
      e.isFile && matchesBundleExt e.name) = 0 := by
  constructor <;> rfl

/-- C5 (amended): an entry of the temp tree — file or directory alike —
is collected as an AssetBundle iff its name ends with `.assetbundle`,
`.bundle` or `.unity3d`, and after discovery `stats['assetbundles']`
equals the number of such entries, directories included. -/
theorem assetbundle_discovery_extension_matching (tree : List FEntry) :
    (∀ e : FEntry, e ∈ findBundles tree ↔
      e ∈ tree ∧ matchesBundleExt e.name = true) ∧
    statsAssetbundles tree = tree.countP fun e => matchesBundleExt e.name := by
  constructor
  · intro e
    rw [findBundles_eq]
    simp only [List.mem_append, List.mem_filter, matchesBundleExt,
      bundle_exts, List.any_cons, List.any_nil, Bool.or_false,
      Bool.or_eq_true]
    tauto
  · have hfun : (fun e : FEntry => matchesBundleExt e.name) =
        (fun e : FEntry => endsWithL ".assetbundle".data e.name.data ||
          (endsWithL ".bundle".data e.name.data ||
           endsWithL ".unity3d".data e.name.data)) := by
      funext e
      simp [matchesBundleExt, bundle_exts]
    rw [hfun, countP_or_three]
    · rw [statsAssetbundles, findBundles_eq]
      simp only [List.length_append, List.countP_eq_length_filter]
      omega
    · intro a
      exact fun h => endsWithL_excl ".bundle".data ".assetbundle".data
        a.name.data (by decide) (by decide) ⟨h.2, h.1⟩
    · intro a
      exact fun h => endsWithL_excl ".unity3d".data ".assetbundle".data
        a.name.data (by decide) (by decide) ⟨h.2, h.1⟩
    · intro a
      exact fun h => endsWithL_excl ".bundle".data ".unity3d".data
        a.name.data (by decide) (by decide) ⟨h.1, h.2⟩

/-! ## Data-file discovery and size filter (`_process_unity_data_files`,
main.py:331-433) -/

/-- An entry of a discovered `Data` directory: final name, whether it is
a regular file, and its size in bytes (`f.stat().st_size`). -/
structure DFile where
  name : String
  isFile : Bool
  size : Nat
deriving DecidableEq

/-- main.py:367: the extension list `['', '.assets', '.resource',
'.unity3d', '.bundle', '.dat', '.bin']`. -/
def data_ext_list : List String :=
  ["", ".assets", ".resource", ".unity3d", ".bundle", ".dat", ".bin"]

/-- Generic membership in a fold that appends a block per element. -/
theorem mem_foldl_append {α β : Type} (g : β → List α) (l : List β) :
    ∀ (acc : List α) (x : α),
      x ∈ l.foldl (fun a b => a ++ g b) acc ↔ x ∈ acc ∨ ∃ b ∈ l, x ∈ g b := by
  induction l with
  | nil => intro acc x; simp
  | cons b l ih =>
      intro acc x
      simp only [List.foldl_cons]
      rw [ih]
      simp only [List.mem_append, List.mem_cons]
      constructor
      · rintro ((h | h) | ⟨b', hb', h⟩)
        · exact Or.inl h
        · exact Or.inr ⟨b, Or.inl rfl, h⟩
        · exact Or.inr ⟨b', Or.inr hb', h⟩
      · rintro (h | ⟨b', (rfl | hb'), h⟩)
        · exact Or.inl (Or.inl h)
        · exact Or.inl (Or.inr h)
        · exact Or.inr ⟨b', hb', h⟩

/-- main.py:366-368: `all_files.extend(data_dir.rglob(f"*{ext}"))` for
each extension of `data_ext_list` (the first one, `''`, already matches
every entry). -/
def dataByExt (tree : List DFile) : List DFile :=
  data_ext_list.foldl
    (fun acc ext => acc ++ tree.filter fun f => endsWithL ext.data f.name.data) []

/-- main.py:371-373: append every remaining file not already collected. -/
def allFilesOf (tree : List DFile) : List DFile :=
  dataByExt tree ++
    tree.filter fun f => f.isFile && !(decide (f ∈ dataByExt tree))

/-- main.py:376: `files = [f for f in all_files if f.is_file() and
f.stat().st_size > 1024]` — the list of files handed to processing (or
copied when UnityPy is absent). -/
def selectDataFiles (tree : List DFile) : List DFile :=
  (allFilesOf tree).filter fun f => f.isFile && decide (1024 < f.size)

theorem endsWithL_nil (s : List Char) : endsWithL [] s = true := by
  simp [endsWithL]

theorem mem_dataByExt (tree : List DFile) (f : DFile) :
    f ∈ dataByExt tree ↔ f ∈ tree := by
  rw [dataByExt, mem_foldl_append]
  constructor
  · rintro (h | ⟨ext, _, h⟩)
    · cases h
    · exact (List.mem_filter.mp h).1
  · intro h
    refine Or.inr ⟨"", by simp [data_ext_list], List.mem_filter.mpr ⟨h, ?_⟩⟩
    show endsWithL [] f.name.data = true
    exact endsWithL_nil _

/-- C10: a file of a discovered Data directory is selected for
processing iff it is a regular file strictly larger than 1024 bytes;
files of 1024 bytes or smaller (and non-files) are silently skipped. -/
theorem data_file_selection (tree : List DFile) (f : DFile) :
    f ∈ selectDataFiles tree ↔ f ∈ tree ∧ f.isFile = true ∧ 1024 < f.size := by
  rw [selectDataFiles, List.mem_filter]
  constructor
  · rintro ⟨hmem, hcond⟩
    simp only [Bool.and_eq_true, decide_eq_true_eq] at hcond
    refine ⟨?_, hcond.1, hcond.2⟩
    rcases List.mem_append.mp hmem with h | h
    · exact (mem_dataByExt tree f).mp h
    · exact (List.mem_filter.mp h).1
  · rintro ⟨hmem, hfile, hsize⟩
    refine ⟨List.mem_append.mpr (Or.inl ((mem_dataByExt tree f).mpr hmem)), ?_⟩
    simp [hfile, hsize]

/-- C10 witness: a 2 KB regular file named `level0` is selected. -/
theorem data_file_selection_witness :
    (⟨"level0", true, 2048⟩ : DFile) ∈ selectDataFiles [⟨"level0", true, 2048⟩] :=
  (data_file_selection [⟨"level0", true, 2048⟩] ⟨"level0", true, 2048⟩).mpr
    ⟨by simp, rfl, by decide⟩

/-! ## Loose-resource categorization (`_extract_resources`,
main.py:628-669) -/

/-- A file of the unpacked temp tree for resource copying: directory
components, final name, content, and whether it is a regular file
(`shutil.copy2` on a directory raises and the inner `except: pass`
skips it). -/
structure TFile where
  dir : List String
  name : String
  content : String
  isFile : Bool
deriving DecidableEq

/-- main.py:632: `texture_exts = ['.png', '.jpg', '.jpeg', '.tga']`. -/
def texture_exts : List String := [".png", ".jpg", ".jpeg", ".tga"]

/-- main.py:655: `audio_exts = ['.mp3', '.wav', '.ogg']`. -/
def audio_exts : List String := [".mp3", ".wav", ".ogg"]

/-- main.py:644: the words of `icon_patterns = ['*icon*', '*launcher*',
'*logo*']`. -/
def icon_pats : List String := ["icon", "launcher", "logo"]

/-- Naive substring test: `pat` occurs contiguously in `s`. -/
def containsPat (pat : List Char) : List Char → Bool
  | [] => pat.isPrefixOf []
  | c :: rest => pat.isPrefixOf (c :: rest) || containsPat pat rest

/-- The glob `f"{pattern}.png"` of main.py:646 with `pattern = *word*`:
the name ends in `.png` and the word occurs before that final `.png`
(the words `icon`, `launcher`, `logo` contain no `.`, so an occurrence
can never overlap the trailing `.png`). -/
def matchesStarPatStarPng (pat n : List Char) : Bool :=
  endsWithL ".png".data n && containsPat pat (n.take (n.length - 4))

/-- Copy every regular file whose name ends with one of `exts` to
`folder/<relative path>` (main.py:633-641 for textures, 656-664 for
audio). -/
def copyByExt (folder : String) (exts : List String) (tree : List TFile) :
    List (DirPath × String) :=
  exts.foldl
    (fun acc ext =>
      acc ++ ((tree.filter fun f =>
          endsWithL ext.data f.name.data && f.isFile).map
        fun f => (folder :: f.dir ++ [f.name], f.content))) []

/-- Copy every regular file matching an icon pattern to `icons/<name>`
(flat, main.py:644-652). -/
def copyIcons (tree : List TFile) : List (DirPath × String) :=
  icon_pats.foldl
    (fun acc pat =>
      acc ++ ((tree.filter fun f =>
          matchesStarPatStarPng pat.data f.name.data && f.isFile).map
        fun f => (["icons", f.name], f.content))) []

/-- Embedding of `_extract_resources` (main.py:628-669): textures, then
icons, then audio.  The result lists the copies performed as
(destination path, content) pairs. -/
def extract_resources (tree : List TFile) : List (DirPath × String) :=
  copyByExt "textures" texture_exts tree ++ copyIcons tree ++
    copyByExt "audio" audio_exts tree

/-- C3: the claim says loose 3D-model files are copied into the
`3d_models` folder just as textures, audio and icons are copied into
theirs.  Refuted at a concrete input: a loose `hero.obj` model file
(`.obj` is exactly the model extension the report itself counts under
`3d_models`, main.py:681) produces no copy at all — `_extract_resources`
has no model branch, and nothing else populates `3d_models` from the
unpacked tree. -/
theorem loose_models_not_copied :
    endsWithL ".obj".data "hero.obj".data = true ∧
    extract_resources [⟨[], "hero.obj", "mesh-data", true⟩] = [] := by
  exact ⟨by decide, rfl⟩

/-- C3 (amended): `_extract_resources` copies loose textures, icons and
audio files into their categorized folders, but never copies anything
into `3d_models`: every destination it writes lies under `textures`,
`icons` or `audio`. -/
theorem resource_extraction_categories (tree : List TFile) :
    (∀ pc : DirPath × String, pc ∈ extract_resources tree →
      pc.1.head? = some "textures" ∨ pc.1.head? = some "icons" ∨
        pc.1.head? = some "audio") ∧
    (∀ f ∈ tree, f.isFile = true →
      ∀ ext ∈ texture_exts, endsWithL ext.data f.name.data = true →
        ("textures" :: f.dir ++ [f.name], f.content) ∈ extract_resources tree) ∧
    (∀ f ∈ tree, f.isFile = true →
      ∀ ext ∈ audio_exts, endsWithL ext.data f.name.data = true →
        ("audio" :: f.dir ++ [f.name], f.content) ∈ extract_resources tree) ∧
    (∀ f ∈ tree, f.isFile = true →
      ∀ pat ∈ icon_pats, matchesStarPatStarPng pat.data f.name.data = true →
        (["icons", f.name], f.content) ∈ extract_resources tree) := by
  refine ⟨?_, ?_, ?_, ?_⟩
  · intro pc hpc
    rcases List.mem_append.mp hpc with h | h
    · rcases List.mem_append.mp h with h | h
      · rcases (mem_foldl_append _ _ _ _).mp h with h | ⟨ext, _, h⟩
        · cases h
        · obtain ⟨f, _, rfl⟩ := List.mem_map.mp h
          exact Or.inl rfl
      · rcases (mem_foldl_append _ _ _ _).mp h with h | ⟨pat, _, h⟩
        · cases h
        · obtain ⟨f, _, rfl⟩ := List.mem_map.mp h
          exact Or.inr (Or.inl rfl)
    · rcases (mem_foldl_append _ _ _ _).mp h with h | ⟨ext, _, h⟩
      · cases h
      · obtain ⟨f, _, rfl⟩ := List.mem_map.mp h
        exact Or.inr (Or.inr rfl)
  · intro f hf hfile ext hext hmatch
    refine List.mem_append.mpr (Or.inl (List.mem_append.mpr (Or.inl ?_)))
    refine (mem_foldl_append _ _ _ _).mpr (Or.inr ⟨ext, hext, ?_⟩)
    exact List.mem_map.mpr
      ⟨f, List.mem_filter.mpr ⟨hf, by simp [hmatch, hfile]⟩, rfl⟩
  · intro f hf hfile ext hext hmatch
    refine List.mem_append.mpr (Or.inr ?_)
    refine (mem_foldl_append _ _ _ _).mpr (Or.inr ⟨ext, hext, ?_⟩)
    exact List.mem_map.mpr
      ⟨f, List.mem_filter.mpr ⟨hf, by simp [hmatch, hfile]⟩, rfl⟩
  · intro f hf hfile pat hpat hmatch
    refine List.mem_append.mpr (Or.inl (List.mem_append.mpr (Or.inr ?_)))
    refine (mem_foldl_append _ _ _ _).mpr (Or.inr ⟨pat, hpat, ?_⟩)
    exact List.mem_map.mpr
      ⟨f, List.mem_filter.mpr ⟨hf, by simp [hmatch, hfile]⟩, rfl⟩

/-- C3 amended-theorem witness: a loose `a.png` is copied into the
`textures` folder. -/
theorem resource_extraction_categories_witness :
    ("textures" :: ([] : List String) ++ ["a.png"], "img") ∈
      extract_resources [⟨[], "a.png", "img", true⟩] :=
  (resource_extraction_categories [⟨[], "a.png", "img", true⟩]).2.1
    ⟨[], "a.png", "img", true⟩ (by simp) rfl ".png" (by simp [texture_exts])
    (by decide)

/-! ## Best-effort per-file processing (main.py:391-421 and 550-565) -/

/-- The per-file loop of `_process_unity_data_files` (main.py:391-421):
hand each file to the parsing library (`p`, returning the meshes and
textures it extracted, or raising).  On success accumulate
`(total_meshes, total_textures, data_files)`; on an exception fall into
the `except` branch and `continue` with the next file. -/
def processDataLoop (p : String → Except String (Nat × Nat)) :
    List String → Nat × Nat × Nat → Nat × Nat × Nat
  | [], acc => acc
  | f :: rest, acc =>
    match p f with
    | .ok mt => processDataLoop p rest (acc.1 + mt.1, acc.2.1 + mt.2, acc.2.2 + 1)
    | .error _ => processDataLoop p rest acc

/-- The per-bundle loop of `_extract_unity_assets` (main.py:550-565):
hand each AssetBundle to the library; on an exception log a warning and
proceed with the next bundle, accumulating `(models, textures)`. -/
def processBundleLoop (p : String → Except String (Nat × Nat)) :
    List String → Nat × Nat → Nat × Nat
  | [], acc => acc
  | b :: rest, acc =>
    match p b with
    | .ok mt => processBundleLoop p rest (acc.1 + mt.1, acc.2 + mt.2)
    | .error _ => processBundleLoop p rest acc

/-- C4: per-file processing is best-effort.  For any behaviour `p` of the
Unity-parsing library, if the call on a file raises then both loops
continue with exactly the remaining files and an unchanged accumulator —
a failure on one file never aborts the extraction of the rest. -/
theorem per_file_failure_never_aborts (p : String → Except String (Nat × Nat))
    (f e : String) (rest : List String)
    (acc3 : Nat × Nat × Nat) (acc2 : Nat × Nat) (hf : p f = .error e) :
    processDataLoop p (f :: rest) acc3 = processDataLoop p rest acc3 ∧
    processBundleLoop p (f :: rest) acc2 = processBundleLoop p rest acc2 := by
  constructor <;> simp [processDataLoop, processBundleLoop, hf]

/-- C4 witness: a library that always raises skips the first file and
still visits the rest. -/
theorem per_file_failure_never_aborts_witness :
    processDataLoop (fun _ => Except.error "bad") ["f1", "f2"] (0, 0, 0) =
      processDataLoop (fun _ => Except.error "bad") ["f2"] (0, 0, 0) ∧
    processBundleLoop (fun _ => Except.error "bad") ["f1", "f2"] (0, 0) =
      processBundleLoop (fun _ => Except.error "bad") ["f2"] (0, 0) :=
  per_file_failure_never_aborts (fun _ => Except.error "bad") "f1" "bad"
    ["f2"] (0, 0, 0) (0, 0) rfl

/-! ## Entry points (main.py:1417-1431, gui.py:202-206) -/

/-- What an entry point of the repository does when invoked. -/
inductive MainAction : Type where
  | exitWithError
  | showGuiWindow
  | runExtractionHeadless
deriving DecidableEq

/-- main.py:1417-1431: `main()` builds a `QApplication`, exits with an
error when PyQt5 is unavailable, and otherwise shows the
`APKExtractorGUI` window. -/
def mainEntryAction (pyqtAvailable : Bool) : MainAction :=
  if pyqtAvailable then .showGuiWindow else .exitWithError

/-- gui.py:202-206: `main()` builds a `QApplication` and shows the
`APKExtractorGUI` window; without PyQt5 (imported unconditionally at
gui.py:8) the module fails to load. -/
def guiEntryAction (pyqtAvailable : Bool) : MainAction :=
  if pyqtAvailable then .showGuiWindow else .exitWithError

/-- The repository's two entry points. -/
inductive EntryPointId : Type where
  | mainPy
  | guiPy
deriving DecidableEq

def entryAction : EntryPointId → Bool → MainAction
  | .mainPy, b => mainEntryAction b
  | .guiPy, b => guiEntryAction b

/-- C6: the claim says a separate command-line entry point performs the
extraction job without a GUI.  Refuted: the repository's only entry
points are `main()` of main.py and `main()` of gui.py, and under every
PyQt availability neither ever runs extraction headlessly — each one
either shows a GUI window or exits with an error. -/
theorem no_headless_entry_point :
    ¬ ∃ (id : EntryPointId) (b : Bool),
        entryAction id b = MainAction.runExtractionHeadless := by
  rintro ⟨id, b, h⟩
  cases id <;> cases b <;>
    simp [entryAction, mainEntryAction, guiEntryAction] at h

/-- C6 (amended): there is a second entry point (gui.py), but both entry
points launch the PyQt GUI when it is available and abort otherwise;
extraction without a GUI is only reachable by importing
`APKExtractorCore` programmatically, not via any entry point. -/
theorem entry_points_all_gui (id : EntryPointId) (b : Bool) :
    entryAction id b = MainAction.showGuiWindow ∨
    entryAction id b = MainAction.exitWithError := by
  cases id <;> cases b <;>
    simp [entryAction, mainEntryAction, guiEntryAction]

/-! ## The extraction pipeline and its reports (`extract_apk`,
main.py:206-234, `_create_reports`, main.py:671-755) -/

/-- The run's statistics dictionary (main.py:179-184). -/
structure UStats where
  models : Nat
  textures : Nat
  assetbundles : Nat
  data_files : Nat
deriving DecidableEq

/-- main.py:179-184: all four counters start at zero. -/
def initStats : UStats := ⟨0, 0, 0, 0⟩

/-- Write (or overwrite) the file at `p`. -/
def writeFile (fs : FS) (p : DirPath) (c : String) : FS := (p, c) :: fs

/-- main.py:689: `reports/extraction_report.json`. -/
def jsonReportPath : DirPath := ["reports", "extraction_report.json"]

/-- main.py:750: `reports/report.html`. -/
def htmlReportPath : DirPath := ["reports", "report.html"]

/-- The JSON report's payload (main.py:675-692).  The exact `json.dump`
byte serialization is abstracted to a rendering that carries the run's
statistics. -/
def jsonReport (st : UStats) : String :=
  "extraction_report models=" ++ toString st.models ++
    " textures=" ++ toString st.textures ++
    " assetbundles=" ++ toString st.assetbundles ++
    " data_files=" ++ toString st.data_files

/-- The HTML report's payload (main.py:702-755), likewise carrying the
run's statistics. -/
def htmlReport (st : UStats) : String :=
  "APK Extractor Report " ++ toString st.models ++ " " ++
    toString st.textures ++ " " ++ toString st.assetbundles ++ " " ++
    toString st.data_files

/-- `_create_reports` (main.py:671-700): write the JSON report, then the
HTML report, both under `reports/`. -/
def create_reports (st : UStats) (out : FS) : FS :=
  writeFile (writeFile out jsonReportPath (jsonReport st)) htmlReportPath
    (htmlReport st)

/-- The behaviours of the pipeline's first four steps.  Steps 2-4 call
the external parsing library, so their bodies are parameters; what the
embedding fixes is `extract_apk`'s control flow around them. -/
structure RunEnv : Type where
  unpack : Except String FS
  dataStep : FS → FS → UStats → Except String (FS × UStats)
  bundleStep : FS → FS → UStats → Except String (FS × UStats)
  resourceStep : FS → FS → Except String FS

/-- A `try`/`except` that swallows the error and keeps a fallback
state — the shape of the `except` blocks at main.py:432-433, 567-568 and
668-669. -/
def catchStep {α : Type} (x : Except String α) (fallback : α) : α :=
  match x with
  | .ok a => a
  | .error _ => fallback

/-- Embedding of `extract_apk` (main.py:206-234): step 1 re-raises on
failure (main.py:312) and is caught at main.py:232-234, returning
`False` with nothing written; steps 2-4 swallow their own exceptions
internally and the run proceeds; step 5 then writes both reports from
the final statistics and the method returns `True`.  (Failures of the
report writes themselves are I/O faults outside this embedding.) -/
def extract_apk (env : RunEnv) : Bool × FS × UStats :=
  match env.unpack with
  | .error _ => (false, [], initStats)
  | .ok temp =>
    let p1 := catchStep (env.dataStep temp [] initStats) ([], initStats)
    let p2 := catchStep (env.bundleStep temp p1.1 p1.2) p1
    let out3 := catchStep (env.resourceStep temp p2.1) p2.1
    (true, create_reports p2.2 out3, p2.2)

/-- C8: every extraction run that completes successfully (returns
`True`) leaves both `reports/extraction_report.json` and
`reports/report.html` in the output directory, each carrying the run's
statistics — whatever the library did in steps 2-4. -/
theorem reports_written_on_success (env : RunEnv) (fs : FS) (st : UStats)
    (h : extract_apk env = (true, fs, st)) :
    lookupFile fs jsonReportPath = some (jsonReport st) ∧
    lookupFile fs htmlReportPath = some (htmlReport st) := by
  cases hu : env.unpack with
  | error e =>
      simp [extract_apk, hu] at h
  | ok temp =>
      simp only [extract_apk, hu, Prod.mk.injEq, true_and] at h
      obtain ⟨hfs, hst⟩ := h
      subst hst
      rw [← hfs]
      constructor
      · simp [create_reports, writeFile, lookupFile_cons, jsonReportPath,
          htmlReportPath]
      · simp [create_reports, writeFile, lookupFile_cons, htmlReportPath]

/-- C8 witness: a run whose unpack succeeds on an empty archive and whose
library steps all raise still ends with both reports written. -/
theorem reports_written_on_success_witness :
    lookupFile
        (extract_apk
          ⟨Except.ok [], fun _ _ _ => Except.error "e",
            fun _ _ _ => Except.error "e", fun _ _ => Except.error "e"⟩).2.1
        jsonReportPath = some (jsonReport initStats) ∧
    lookupFile
        (extract_apk
          ⟨Except.ok [], fun _ _ _ => Except.error "e",
            fun _ _ _ => Except.error "e", fun _ _ => Except.error "e"⟩).2.1
        htmlReportPath = some (htmlReport initStats) :=
  reports_written_on_success
    ⟨Except.ok [], fun _ _ _ => Except.error "e",
      fun _ _ _ => Except.error "e", fun _ _ => Except.error "e"⟩
    (extract_apk
      ⟨Except.ok [], fun _ _ _ => Except.error "e",
        fun _ _ _ => Except.error "e", fun _ _ => Except.error "e"⟩).2.1
    initStats rfl

end UnityExtractor
